import Mathlib

/-!
Verification development for the construction-finance schedule pipeline
(`schedule/views.py` `ScheduleView.get`, `schedule/forms.py` `PositionForm`,
`schedule/models.py` `Position`).

The embedding follows the source code:
* calendar dates are triples (year, month, day) converted to day counts by
  the standard civil-calendar algorithm (mirroring `datetime.date` and
  `pandas.Timestamp` day arithmetic);
* monetary values are rationals (the spec fixes division semantics to plain
  real division, no rounding until display);
* `ScheduleView.get` becomes `scheduleGet`, returning `Option RenderResult`:
  the bare `return` on a zero-cost or zero-length position becomes `none`
  (Python `None`), the empty-positions branch becomes the blank page, and
  the per-annotation `try ... except` becomes an `Except`-valued annotation
  pass whose error is caught and turned into a plain-text response.
-/

set_option autoImplicit false

namespace ConstrFin

/-- A calendar date, as stored in the `start_date` / `end_date` `DateField`s. -/
structure Date where
  year : Nat
  month : Nat
  day : Nat
deriving DecidableEq, Repr

/-- Day number of a civil date (days since 0000-03-01), the standard
civil-from-days algorithm; mirrors `datetime.date`/`pandas.Timestamp`
ordering and subtraction, e.g. `(end_date - start_date).days`. -/
def toDays (dt : Date) : Nat :=
  let y := if dt.month ≤ 2 then dt.year - 1 else dt.year
  let mp := if dt.month ≤ 2 then dt.month + 9 else dt.month - 3
  let doy := (153 * mp + 2) / 5 + (dt.day - 1)
  365 * y + y / 4 - y / 100 + y / 400 + doy

/-- Inverse of `toDays`: the civil date of a day number. Used to recover the
calendar month of each emitted daily sample. -/
def civilFromDays (z : Nat) : Date :=
  let era := z / 146097
  let doe := z % 146097
  let yoe := (doe - doe / 1460 + doe / 36524 - doe / 146096) / 365
  let y := yoe + era * 400
  let doy := doe - (365 * yoe + yoe / 4 - yoe / 100)
  let mp := (5 * doy + 2) / 153
  let d := doy - (153 * mp + 2) / 5 + 1
  let m := if mp < 10 then mp + 3 else mp - 9
  if m ≤ 2 then ⟨y + 1, m, d⟩ else ⟨y, m, d⟩

/-- Zero-pad a number to two digits, as `strftime` directive `%m` does. -/
def pad2 (n : Nat) : String :=
  if n < 10 then "0" ++ toString n else toString n

/-- Zero-pad a number to four digits, as `strftime` directive `%Y` does. -/
def pad4 (n : Nat) : String :=
  if n < 10 then "000" ++ toString n
  else if n < 100 then "00" ++ toString n
  else if n < 1000 then "0" ++ toString n
  else toString n

/-- The month grouping key of a day number: `start_date.strftime` with format
two-digit month, dash, four-digit year (`%m-%Y`). -/
def monthKey (z : Nat) : String :=
  pad2 (civilFromDays z).month ++ "-" ++ pad4 (civilFromDays z).year

/-- A position record as consumed by the schedule renderer: the model fields
`order`, `name`, `start_date`, `end_date`, `cost`, plus the free-text
`other_name` companion of the sentinel name `"other"` (spec section 6 lists it
among the consumed record fields). -/
structure Position where
  order : Nat
  name : String
  other_name : String
  start_date : Date
  end_date : Date
  cost : ℚ
deriving DecidableEq, Repr

/-- One row of the `data` frame built by `ScheduleView.get`: columns
`Position`, `Cost`, `Month`. -/
structure Sample where
  pos : String
  cost : ℚ
  month : String
deriving DecidableEq, Repr

/-- The date interval of a position after the renderer's silent swap:
`if start_date > end_date: start_date, end_date = end_date, start_date`. -/
def normDates (p : Position) : Nat × Nat :=
  let s := toDays p.start_date
  let e := toDays p.end_date
  if e < s then (e, s) else (s, e)

/-- First day of the corrected interval. -/
def startDay (p : Position) : Nat := (normDates p).1

/-- Last (exclusive) day of the corrected interval. -/
def endDay (p : Position) : Nat := (normDates p).2

/-- `(end_date - start_date).days` on the corrected order, as a count. -/
def daysNat (p : Position) : Nat := endDay p - startDay p

/-- `(end_date - start_date).days` on the corrected order, as a signed
integer (the value a day difference carries in the source). -/
def daysInt (p : Position) : Int := (endDay p : Int) - (startDay p : Int)

/-- Display-name resolution in the renderer:
`if position.name == 'other': position.name = position.other_name`. -/
def resolveName (p : Position) : String :=
  if p.name = "other" then p.other_name else p.name

/-- The abort condition `position.cost == 0 or end_date == start_date`
(checked on the swapped interval). -/
def emptySched (p : Position) : Prop :=
  p.cost = 0 ∨ endDay p = startDay p

instance (p : Position) : Decidable (emptySched p) := by
  unfold emptySched; infer_instance

/-- `cost_per_day = position.cost / (end_date - start_date).days`. -/
def costPerDay (p : Position) : ℚ := p.cost / (daysNat p : ℚ)

/-- The inner loop `for i in range((end_date - start_date).days)`: one sample
per day, tagged with the display name, the uniform daily cost, and the month
key of the current day (the loop appends, then advances `start_date` by one
day). -/
def emitSamples (nm : String) (cpd : ℚ) (s : Nat) (d : Nat) : List Sample :=
  (List.range d).map (fun i => ⟨nm, cpd, monthKey (s + i)⟩)

/-- All daily samples of one position. -/
def samplesFor (p : Position) : List Sample :=
  emitSamples (resolveName p) (costPerDay p) (startDay p) (daysNat p)

/-- The position loop of `ScheduleView.get`: processes positions in order and
accumulates daily samples; on the first position with `cost == 0` or a
zero-length (post-swap) interval it executes a bare `return`, modelled as
`none` — every accumulated sample is discarded. -/
def processPositions : List Position → Option (List Sample)
  | [] => some []
  | p :: rest =>
    if emptySched p then none
    else
      match processPositions rest with
      | none => none
      | some tl => some (samplesFor p ++ tl)

/-- `df['Cost'].sum()`: the grand total over all daily samples. -/
def totalCost (l : List Sample) : ℚ := (l.map Sample.cost).sum

/-- Add `v` to the entry of key `k` of an association table, appending a new
entry when the key is absent; the building block of the `groupby(...).sum()`
aggregations. -/
def addTo {κ : Type} [DecidableEq κ] : List (κ × ℚ) → κ → ℚ → List (κ × ℚ)
  | [], k, v => [(k, v)]
  | (k0, v0) :: rest, k, v =>
    if k0 = k then (k0, v0 + v) :: rest else (k0, v0) :: addTo rest k v

/-- `df.groupby(key)['Cost'].sum()` as an association table from keys to
summed costs. -/
def groupSum {κ : Type} [DecidableEq κ] (f : Sample → κ) (l : List Sample) :
    List (κ × ℚ) :=
  l.foldl (fun acc s => addTo acc (f s) s.cost) []

/-- `monthly_cost = df.groupby('Month')['Cost'].sum()`. The source first
parses the `%m-%Y` strings back into month-start timestamps; that parse is
injective on the keys present, so grouping by the string key yields the same
buckets and sums. -/
def monthlyCost (l : List Sample) : List (String × ℚ) :=
  groupSum Sample.month l

/-- `position_cost = df.groupby('Position')['Cost'].sum()`. -/
def positionCost (l : List Sample) : List (String × ℚ) :=
  groupSum Sample.pos l

/-- `position_monthly_cost = df.groupby(['Month', 'Position'])['Cost'].sum()`. -/
def positionMonthlyCost (l : List Sample) : List ((String × String) × ℚ) :=
  groupSum (fun s => (s.month, s.pos)) l

/-- Sum of the values of an aggregate table. -/
def sumValues {κ : Type} (t : List (κ × ℚ)) : ℚ := (t.map Prod.snd).sum

/-- A placed cost label on the chart: a monthly total above all bars, a
position-month subtotal on the position's row, or a position grand total at
the right edge of the chart. -/
inductive Annot where
  | monthTotal (month : String) (v : ℚ)
  | posMonthTotal (idx : Nat) (month : String) (v : ℚ)
  | posTotal (idx : Nat) (v : ℚ)
deriving DecidableEq, Repr

/-- `names.index(row['Position'])`: the first index of the name, or the
`ValueError` carried by the exception when the name is absent. -/
def indexOf (names : List String) (x : String) : Except String Nat :=
  match names.findIdx? (fun n => n == x) with
  | some i => Except.ok i
  | none => Except.error (x ++ " is not in list")

/-- The monthly-total loop: one label per `monthly_cost` row (its month
parse cannot fail on keys the pipeline produced). -/
def placeMonthly (mc : List (String × ℚ)) : List Annot :=
  mc.map (fun r => Annot.monthTotal r.1 r.2)

/-- The position-month loop: each row looks up `names.index(row['Position'])`
and the first failure is the exception caught by the surrounding `except`. -/
def placePosMonthly (names : List String) :
    List ((String × String) × ℚ) → Except String (List Annot)
  | [] => Except.ok []
  | r :: rest =>
    match indexOf names r.1.2 with
    | Except.error e => Except.error e
    | Except.ok i =>
      match placePosMonthly names rest with
      | Except.error e => Except.error e
      | Except.ok l => Except.ok (Annot.posMonthTotal i r.1.1 r.2 :: l)

/-- The position-total loop, with the same lookup and failure behavior. -/
def placePos (names : List String) :
    List (String × ℚ) → Except String (List Annot)
  | [] => Except.ok []
  | r :: rest =>
    match indexOf names r.1 with
    | Except.error e => Except.error e
    | Except.ok i =>
      match placePos names rest with
      | Except.error e => Except.error e
      | Except.ok l => Except.ok (Annot.posTotal i r.2 :: l)

/-- The three annotation loops in source order; the result is the list of
placed labels, or the message of the first exception raised. -/
def placeAnnotations (names : List String) (mc : List (String × ℚ))
    (pmc : List ((String × String) × ℚ)) (pc : List (String × ℚ)) :
    Except String (List Annot) :=
  match placePosMonthly names pmc with
  | Except.error e => Except.error e
  | Except.ok a2 =>
    match placePos names pc with
    | Except.error e => Except.error e
    | Except.ok a3 => Except.ok (placeMonthly mc ++ a2 ++ a3)

/-- The drawn chart artifact: bar labels (display names in input order), the
placed cost annotations, and the grand-total caption. -/
structure Chart where
  names : List String
  annots : List Annot
  total : ℚ
deriving DecidableEq, Repr

/-- The observable outcome of one schedule render: a chart response, the
blank schedule page, or the plain-text error surface
`HttpResponse(f"Error plotting cost information: ...")`. -/
inductive RenderResult where
  | chart (c : Chart)
  | blank
  | errorText (msg : String)
deriving DecidableEq, Repr

/-- Chart construction with the source's per-annotation exception handling:
any failure while placing a cost label is caught and replaced by the
plain-text response carrying the exception message. -/
def renderChart (names : List String) (mc : List (String × ℚ))
    (pmc : List ((String × String) × ℚ)) (pc : List (String × ℚ))
    (total : ℚ) : RenderResult :=
  match placeAnnotations names mc pmc pc with
  | Except.error e =>
    RenderResult.errorText ("Error plotting cost information: " ++ e)
  | Except.ok anns => RenderResult.chart ⟨names, anns, total⟩

/-- `ScheduleView.get` after permission and lookup plumbing: empty position
list renders the blank schedule page; otherwise the sample pipeline runs, a
bare `return` (Python `None`) is `none`, and the surviving samples are
aggregated and drawn. The y-axis names are the display names in input order
(the loop mutated `position.name` in place before the lists were built). -/
def scheduleGet (ps : List Position) : Option RenderResult :=
  if ps = [] then some RenderResult.blank
  else
    match processPositions ps with
    | none => none
    | some samples =>
      some (renderChart (ps.map resolveName) (monthlyCost samples)
        (positionMonthlyCost samples) (positionCost samples)
        (totalCost samples))

/-- The fields of `PositionForm`: the model fields plus the form-only
free-text field `other_name`. -/
structure PositionFormData where
  order : Nat
  name : String
  other_name : String
  start_date : Date
  end_date : Date
  cost : ℚ
deriving DecidableEq, Repr

/-- The in-memory validations of `PositionForm.clean`: selecting the sentinel
name `"other"` requires a non-empty `other_name`, and the end date may not
precede the start date. (The order/name uniqueness checks consult the
database and belong to the external persistence collaborator.) -/
def cleanOk (fd : PositionFormData) : Prop :=
  ¬(fd.name = "other" ∧ fd.other_name = "") ∧
  ¬(toDays fd.end_date < toDays fd.start_date)

instance (fd : PositionFormData) : Decidable (cleanOk fd) := by
  unfold cleanOk; infer_instance

/-- The name stored by `PositionForm.save`: the sentinel `"other"` is
replaced by the cleaned `other_name` before saving. -/
def savedName (fd : PositionFormData) : String :=
  if fd.name = "other" then fd.other_name else fd.name

/-- A persisted `Position` row, mirroring `schedule/models.py`: the model has
no `other_name` column, so only the resolved name is stored. -/
structure SavedPosition where
  order : Nat
  name : String
  start_date : Date
  end_date : Date
  cost : ℚ
deriving DecidableEq, Repr

/-- `PositionForm.save` on validated data. -/
def saveForm (fd : PositionFormData) : SavedPosition :=
  ⟨fd.order, savedName fd, fd.start_date, fd.end_date, fd.cost⟩

theorem sumValues_addTo {κ : Type} [DecidableEq κ] (acc : List (κ × ℚ))
    (k : κ) (v : ℚ) : sumValues (addTo acc k v) = sumValues acc + v := by
  induction acc with
  | nil => simp [addTo, sumValues]
  | cons hd tl ih =>
    obtain ⟨k0, v0⟩ := hd
    by_cases hk : k0 = k
    · simp [addTo, hk, sumValues]
      ring
    · simp only [addTo, if_neg hk, sumValues, List.map_cons, List.sum_cons] at ih ⊢
      rw [ih]
      ring

theorem sumValues_foldl {κ : Type} [DecidableEq κ] (f : Sample → κ)
    (l : List Sample) (acc : List (κ × ℚ)) :
    sumValues (l.foldl (fun a s => addTo a (f s) s.cost) acc) =
      sumValues acc + totalCost l := by
  induction l generalizing acc with
  | nil => simp [totalCost]
  | cons s tl ih =>
    simp only [List.foldl_cons]
    rw [ih, sumValues_addTo]
    simp only [totalCost, List.map_cons, List.sum_cons]
    ring

theorem sumValues_groupSum {κ : Type} [DecidableEq κ] (f : Sample → κ)
    (l : List Sample) : sumValues (groupSum f l) = totalCost l := by
  have h := sumValues_foldl f l []
  simpa [groupSum, sumValues] using h

theorem mem_keys_addTo {κ : Type} [DecidableEq κ] {acc : List (κ × ℚ)}
    {k k1 : κ} {v : ℚ} (h : k ∈ (addTo acc k1 v).map Prod.fst) :
    k ∈ acc.map Prod.fst ∨ k = k1 := by
  induction acc with
  | nil =>
    simp [addTo] at h
    exact Or.inr h
  | cons hd tl ih =>
    obtain ⟨k0, v0⟩ := hd
    by_cases hk : k0 = k1
    · simp only [addTo, if_pos hk, List.map_cons, List.mem_cons] at h
      exact Or.inl (by simpa using h)
    · simp only [addTo, if_neg hk, List.map_cons, List.mem_cons] at h
      rcases h with h | h
      · exact Or.inl (by simp [h])
      · rcases ih h with h1 | h1
        · exact Or.inl (by simp [h1])
        · exact Or.inr h1

theorem mem_keys_foldl {κ : Type} [DecidableEq κ] (f : Sample → κ)
    (l : List Sample) (acc : List (κ × ℚ)) (k : κ)
    (h : k ∈ (l.foldl (fun a s => addTo a (f s) s.cost) acc).map Prod.fst) :
    k ∈ acc.map Prod.fst ∨ ∃ s ∈ l, f s = k := by
  induction l generalizing acc with
  | nil =>
    simp only [List.foldl_nil] at h
    exact Or.inl h
  | cons s tl ih =>
    simp only [List.foldl_cons] at h
    rcases ih _ h with h1 | h1
    · rcases mem_keys_addTo h1 with h2 | h2
      · exact Or.inl h2
      · exact Or.inr ⟨s, by simp, h2.symm⟩
    · obtain ⟨s1, hs1, hfs1⟩ := h1
      exact Or.inr ⟨s1, by simp [hs1], hfs1⟩

theorem mem_keys_groupSum {κ : Type} [DecidableEq κ] (f : Sample → κ)
    (l : List Sample) (k : κ) (h : k ∈ (groupSum f l).map Prod.fst) :
    ∃ s ∈ l, f s = k := by
  rcases mem_keys_foldl f l [] k (by simpa [groupSum] using h) with h1 | h1
  · simp at h1
  · exact h1

theorem pos_of_mem_samplesFor (p : Position) (s : Sample)
    (hs : s ∈ samplesFor p) : s.pos = resolveName p := by
  simp only [samplesFor, emitSamples, List.mem_map, List.mem_range] at hs
  obtain ⟨i, _, rfl⟩ := hs
  rfl

theorem length_samplesFor (p : Position) :
    (samplesFor p).length = daysNat p := by
  simp [samplesFor, emitSamples]

theorem map_cost_samplesFor (p : Position) :
    (samplesFor p).map Sample.cost =
      List.replicate (daysNat p) (costPerDay p) := by
  simp only [samplesFor, emitSamples, List.map_map]
  have hcomp : (Sample.cost ∘ fun i =>
      Sample.mk (resolveName p) (costPerDay p) (monthKey (startDay p + i)))
      = fun _ => costPerDay p := rfl
  rw [hcomp, List.map_const', List.length_range]

theorem foldl_addTo_const_key {κ : Type} [DecidableEq κ] (f : Sample → κ)
    (k : κ) (l : List Sample) (hk : ∀ s ∈ l, f s = k) (v : ℚ) :
    l.foldl (fun a s => addTo a (f s) s.cost) [(k, v)] =
      [(k, v + totalCost l)] := by
  induction l generalizing v with
  | nil => simp [totalCost]
  | cons s tl ih =>
    have hs : f s = k := hk s (by simp)
    simp only [List.foldl_cons, addTo, hs, if_true, eq_self_iff_true]
    rw [ih (fun q hq => hk q (by simp [hq])) (v + s.cost)]
    simp only [totalCost, List.map_cons, List.sum_cons, List.cons.injEq,
      Prod.mk.injEq, and_true, true_and]
    ring

theorem groupSum_const_key {κ : Type} [DecidableEq κ] (f : Sample → κ)
    (k : κ) (l : List Sample) (hne : l ≠ []) (hk : ∀ s ∈ l, f s = k) :
    groupSum f l = [(k, totalCost l)] := by
  cases l with
  | nil => exact absurd rfl hne
  | cons s tl =>
    have hs : f s = k := hk s (by simp)
    unfold groupSum
    simp only [List.foldl_cons, addTo, hs]
    rw [foldl_addTo_const_key f k tl (fun q hq => hk q (by simp [hq])) s.cost]
    simp [totalCost]

theorem month_of_mem_samplesFor (p : Position) (s : Sample)
    (hs : s ∈ samplesFor p) :
    ∃ i < daysNat p, s.month = monthKey (startDay p + i) := by
  simp only [samplesFor, emitSamples, List.mem_map, List.mem_range] at hs
  obtain ⟨i, hi, rfl⟩ := hs
  exact ⟨i, hi, rfl⟩

theorem foundation_days :
    daysNat ⟨1, "Foundation", "", ⟨2024, 1, 1⟩, ⟨2024, 2, 1⟩, 3100⟩ = 31 := by
  decide

theorem foundation_cost_per_day :
    costPerDay ⟨1, "Foundation", "", ⟨2024, 1, 1⟩, ⟨2024, 2, 1⟩, 3100⟩ =
      100 := by
  rw [costPerDay, foundation_days]
  show (3100 : ℚ) / ((31 : Nat) : ℚ) = 100
  norm_num

theorem foundation_costs :
    (samplesFor ⟨1, "Foundation", "", ⟨2024, 1, 1⟩, ⟨2024, 2, 1⟩, 3100⟩).map
      Sample.cost = List.replicate 31 (100 : ℚ) := by
  rw [map_cost_samplesFor, foundation_days, foundation_cost_per_day]

theorem foundation_total :
    totalCost (samplesFor
      ⟨1, "Foundation", "", ⟨2024, 1, 1⟩, ⟨2024, 2, 1⟩, 3100⟩) = 3100 := by
  rw [totalCost, foundation_costs, List.sum_replicate]
  norm_num

theorem foundation_monthly :
    monthlyCost (samplesFor
        ⟨1, "Foundation", "", ⟨2024, 1, 1⟩, ⟨2024, 2, 1⟩, 3100⟩) =
      [("01-2024", (3100 : ℚ))] := by
  have hne : samplesFor ⟨1, "Foundation", "", ⟨2024, 1, 1⟩, ⟨2024, 2, 1⟩, 3100⟩
      ≠ [] := by
    intro h
    have := length_samplesFor
      ⟨1, "Foundation", "", ⟨2024, 1, 1⟩, ⟨2024, 2, 1⟩, 3100⟩
    rw [h, foundation_days] at this
    simp at this
  have hk : ∀ s ∈ samplesFor
      ⟨1, "Foundation", "", ⟨2024, 1, 1⟩, ⟨2024, 2, 1⟩, 3100⟩,
      s.month = "01-2024" := by
    intro s hs
    obtain ⟨i, hi, hm⟩ := month_of_mem_samplesFor _ s hs
    rw [foundation_days] at hi
    have hall : ∀ j < 31, monthKey
        (startDay ⟨1, "Foundation", "", ⟨2024, 1, 1⟩, ⟨2024, 2, 1⟩, 3100⟩ + j)
        = "01-2024" := by decide
    rw [hm]
    exact hall i hi
  rw [monthlyCost, groupSum_const_key Sample.month "01-2024" _ hne hk,
    foundation_total]

theorem processPositions_eq_none_of_bad (ps : List Position)
    (h : ∃ p ∈ ps, emptySched p) : processPositions ps = none := by
  induction ps with
  | nil => simp at h
  | cons p tl ih =>
    by_cases hp : emptySched p
    · simp [processPositions, hp]
    · obtain ⟨q, hq, hbq⟩ := h
      rcases List.mem_cons.mp hq with rfl | hq'
      · exact absurd hbq hp
      · rw [processPositions, if_neg hp, ih ⟨q, hq', hbq⟩]

/-- Claim C1: for every position included in the schedule (cost greater than
zero, non-zero duration of D days), the sum of the D emitted daily sample
costs, each equal to cost / D, equals the position's original cost field. -/
theorem c1_daily_cost_conservation (p : Position) (_hc : 0 < p.cost)
    (hd : daysNat p ≠ 0) : totalCost (samplesFor p) = p.cost := by
  have hd' : (daysNat p : ℚ) ≠ 0 := Nat.cast_ne_zero.mpr hd
  rw [totalCost, map_cost_samplesFor, List.sum_replicate, nsmul_eq_mul,
    costPerDay, mul_comm]
  exact div_mul_cancel₀ p.cost hd'

/-- Witness for C1: the spec's example, cost 10000 spread over 10 days, sums
back to 10000. -/
theorem c1_witness :
    totalCost (samplesFor ⟨1, "Roof", "", ⟨2024, 1, 1⟩, ⟨2024, 1, 11⟩, 10000⟩)
      = (10000 : ℚ) :=
  c1_daily_cost_conservation
    ⟨1, "Roof", "", ⟨2024, 1, 1⟩, ⟨2024, 1, 11⟩, 10000⟩
    (by decide) (by decide)

/-- Claim C2: for every rendered schedule, the grand total over all daily
samples equals the sum of the per-position aggregates and also the sum of the
per-month aggregates; the two independent groupings of the same sample set
agree. -/
theorem c2_total_equals_both_groupings (ps : List Position)
    (samples : List Sample) (_h : processPositions ps = some samples) :
    totalCost samples = sumValues (positionCost samples) ∧
    totalCost samples = sumValues (monthlyCost samples) :=
  ⟨(sumValues_groupSum Sample.pos samples).symm,
   (sumValues_groupSum Sample.month samples).symm⟩

/-- Witness for C2: a concrete one-position schedule whose pipeline output
satisfies both aggregate identities. -/
theorem c2_witness :
    totalCost (samplesFor ⟨1, "Roof", "", ⟨2024, 1, 1⟩, ⟨2024, 1, 3⟩, 10⟩ ++ [])
      = sumValues (positionCost
          (samplesFor ⟨1, "Roof", "", ⟨2024, 1, 1⟩, ⟨2024, 1, 3⟩, 10⟩ ++ [])) ∧
    totalCost (samplesFor ⟨1, "Roof", "", ⟨2024, 1, 1⟩, ⟨2024, 1, 3⟩, 10⟩ ++ [])
      = sumValues (monthlyCost
          (samplesFor ⟨1, "Roof", "", ⟨2024, 1, 1⟩, ⟨2024, 1, 3⟩, 10⟩ ++ [])) :=
  c2_total_equals_both_groupings
    [⟨1, "Roof", "", ⟨2024, 1, 1⟩, ⟨2024, 1, 3⟩, 10⟩]
    (samplesFor ⟨1, "Roof", "", ⟨2024, 1, 1⟩, ⟨2024, 1, 3⟩, 10⟩ ++ []) rfl

/-- Claim C3: for every non-empty position list containing at least one
position with cost zero or a zero-length (post-swap) date interval, the
entire render aborts — the pipeline yields no samples and no chart artifact
is produced, regardless of the other positions present. -/
theorem c3_bad_position_aborts_whole_render (ps : List Position)
    (hne : ps ≠ []) (hbad : ∃ p ∈ ps, emptySched p) :
    processPositions ps = none ∧
    ∀ ch : Chart, scheduleGet ps ≠ some (RenderResult.chart ch) := by
  have h0 := processPositions_eq_none_of_bad ps hbad
  refine ⟨h0, fun ch => ?_⟩
  simp [scheduleGet, hne, h0]

/-- Witness for C3: a schedule with one valid position and one zero-cost
position aborts entirely. -/
theorem c3_witness :
    processPositions [⟨1, "Roof", "", ⟨2024, 1, 1⟩, ⟨2024, 1, 3⟩, 10⟩,
      ⟨2, "Doors", "", ⟨2024, 1, 1⟩, ⟨2024, 1, 5⟩, 0⟩] = none ∧
    ∀ ch : Chart,
      scheduleGet [⟨1, "Roof", "", ⟨2024, 1, 1⟩, ⟨2024, 1, 3⟩, 10⟩,
        ⟨2, "Doors", "", ⟨2024, 1, 1⟩, ⟨2024, 1, 5⟩, 0⟩] ≠
        some (RenderResult.chart ch) :=
  c3_bad_position_aborts_whole_render _ (by decide) (by decide)

/-- Claim C9: for every non-empty position list in which some position has
cost zero or equal post-swap start and end dates, `ScheduleView.get` exits
via a bare return and yields Python `None` — no response object at all, not
a blank-schedule page — discarding all samples accumulated so far. -/
theorem c9_bad_position_yields_none (ps : List Position) (hne : ps ≠ [])
    (hbad : ∃ p ∈ ps, emptySched p) : scheduleGet ps = none := by
  simp [scheduleGet, hne, processPositions_eq_none_of_bad ps hbad]

/-- Witness for C9: a valid position followed by a zero-length one makes the
whole view return `None`. -/
theorem c9_witness :
    scheduleGet [⟨1, "Roof", "", ⟨2024, 1, 1⟩, ⟨2024, 1, 3⟩, 10⟩,
      ⟨2, "Doors", "", ⟨2024, 1, 5⟩, ⟨2024, 1, 5⟩, 7⟩] = none :=
  c9_bad_position_yields_none _ (by decide) (by decide)

/-- Counterexample for C4: on the claimed scenario (Foundation, 2024-01-01 to
2024-02-01, cost 3100) the January bucket holds 3100, not 3000 — all 31
sample days (Jan 1 through Jan 31) lie in January because the end date
Feb 1 is exclusive, so nothing accumulates across the month boundary. -/
theorem c4_counterexample :
    (monthlyCost (samplesFor
        ⟨1, "Foundation", "", ⟨2024, 1, 1⟩, ⟨2024, 2, 1⟩, 3100⟩)).lookup
      "01-2024" ≠ some (3000 : ℚ) := by
  rw [foundation_monthly]
  simp only [List.lookup]
  norm_num

/-- Claim C4 (amended): the position Foundation from 2024-01-01 to 2024-02-01
with cost 3100 produces 31 daily samples of 100 each, and the only monthly
bucket is January 2024 with total 3100; no remainder crosses into
February. -/
theorem c4_amended_foundation_scenario :
    (samplesFor ⟨1, "Foundation", "", ⟨2024, 1, 1⟩, ⟨2024, 2, 1⟩, 3100⟩).map
        Sample.cost = List.replicate 31 (100 : ℚ) ∧
    monthlyCost (samplesFor
        ⟨1, "Foundation", "", ⟨2024, 1, 1⟩, ⟨2024, 2, 1⟩, 3100⟩) =
      [("01-2024", (3100 : ℚ))] :=
  ⟨foundation_costs, foundation_monthly⟩

/-- Claim C5: for every normalized position spanning D days, the distribution
builder emits exactly D samples, one per calendar day from the start date
inclusive to the end date exclusive, each tagged with the position's display
name and the month key (two-digit month, dash, four-digit year) of that
day. -/
theorem c5_one_sample_per_day (p : Position) (i : Nat) (h : i < daysNat p) :
    (samplesFor p).length = daysNat p ∧
    (samplesFor p)[i]? =
      some ⟨resolveName p, costPerDay p, monthKey (startDay p + i)⟩ := by
  refine ⟨by simp [samplesFor, emitSamples], ?_⟩
  simp [samplesFor, emitSamples, List.getElem?_map, List.getElem?_range, h]

/-- Witness for C5: the second sample of a three-day position is tagged with
the display name and the month key of the second day. -/
theorem c5_witness :
    (samplesFor ⟨1, "Doors", "", ⟨2024, 3, 1⟩, ⟨2024, 3, 4⟩, 30⟩).length =
      daysNat ⟨1, "Doors", "", ⟨2024, 3, 1⟩, ⟨2024, 3, 4⟩, 30⟩ ∧
    (samplesFor ⟨1, "Doors", "", ⟨2024, 3, 1⟩, ⟨2024, 3, 4⟩, 30⟩)[1]? =
      some ⟨resolveName ⟨1, "Doors", "", ⟨2024, 3, 1⟩, ⟨2024, 3, 4⟩, 30⟩,
        costPerDay ⟨1, "Doors", "", ⟨2024, 3, 1⟩, ⟨2024, 3, 4⟩, 30⟩,
        monthKey (startDay ⟨1, "Doors", "", ⟨2024, 3, 1⟩, ⟨2024, 3, 4⟩, 30⟩
          + 1)⟩ :=
  c5_one_sample_per_day ⟨1, "Doors", "", ⟨2024, 3, 1⟩, ⟨2024, 3, 4⟩, 30⟩ 1
    (by decide)

/-- Claim C6: for every position whose start date is after its end date, the
renderer swaps the two dates instead of erroring, and the day count is
computed on the corrected order, hence never negative. -/
theorem c6_swap_makes_days_nonnegative (p : Position)
    (h : toDays p.end_date < toDays p.start_date) :
    normDates p = (toDays p.end_date, toDays p.start_date) ∧
    daysInt p = (toDays p.start_date : Int) - (toDays p.end_date : Int) ∧
    0 ≤ daysInt p := by
  have h1 : normDates p = (toDays p.end_date, toDays p.start_date) := by
    simp [normDates, h]
  refine ⟨h1, ?_, ?_⟩
  · simp [daysInt, endDay, startDay, h1]
  · simp only [daysInt, endDay, startDay, h1]
    omega

/-- Witness for C6: a position entered with its dates reversed is swapped and
spans nine non-negative days. -/
theorem c6_witness :
    normDates ⟨1, "Windows", "", ⟨2024, 5, 10⟩, ⟨2024, 5, 1⟩, 9⟩ =
      (toDays ⟨2024, 5, 1⟩, toDays ⟨2024, 5, 10⟩) ∧
    daysInt ⟨1, "Windows", "", ⟨2024, 5, 10⟩, ⟨2024, 5, 1⟩, 9⟩ =
      (toDays ⟨2024, 5, 10⟩ : Int) - (toDays ⟨2024, 5, 1⟩ : Int) ∧
    0 ≤ daysInt ⟨1, "Windows", "", ⟨2024, 5, 10⟩, ⟨2024, 5, 1⟩, 9⟩ :=
  c6_swap_makes_days_nonnegative
    ⟨1, "Windows", "", ⟨2024, 5, 10⟩, ⟨2024, 5, 1⟩, 9⟩ (by decide)

/-- Claim C7: every position whose name is the sentinel value and whose
free-text name is, e.g., Custom Work is displayed (its y-axis label is the
resolved name) and aggregated (per-position and per-position-month keys)
under the free-text name, and never under the literal sentinel string. -/
theorem c7_sentinel_resolved_everywhere (p : Position) (hn : p.name = "other")
    (ho : p.other_name ≠ "other") :
    resolveName p = p.other_name ∧
    (∀ s ∈ samplesFor p, s.pos = p.other_name) ∧
    (∀ k ∈ (positionCost (samplesFor p)).map Prod.fst, k = p.other_name) ∧
    "other" ∉ (positionCost (samplesFor p)).map Prod.fst ∧
    (∀ kp ∈ (positionMonthlyCost (samplesFor p)).map Prod.fst,
      kp.2 = p.other_name) := by
  have hres : resolveName p = p.other_name := by simp [resolveName, hn]
  have hsamp : ∀ s ∈ samplesFor p, s.pos = p.other_name := fun s hs =>
    (pos_of_mem_samplesFor p s hs).trans hres
  have hpc : ∀ k ∈ (positionCost (samplesFor p)).map Prod.fst,
      k = p.other_name := by
    intro k hk
    obtain ⟨s, hs, hfs⟩ := mem_keys_groupSum Sample.pos (samplesFor p) k hk
    rw [← hfs]
    exact hsamp s hs
  refine ⟨hres, hsamp, hpc, ?_, ?_⟩
  · intro hmem
    exact ho (hpc _ hmem).symm
  · intro kp hkp
    obtain ⟨s, hs, hfs⟩ :=
      mem_keys_groupSum (fun s => (s.month, s.pos)) (samplesFor p) kp hkp
    rw [← hfs]
    exact hsamp s hs

/-- Witness for C7: a sentinel-named position with free-text name Custom Work
is labeled and aggregated under Custom Work only. -/
theorem c7_witness :
    resolveName ⟨1, "other", "Custom Work", ⟨2024, 1, 1⟩, ⟨2024, 1, 3⟩, 10⟩ =
      "Custom Work" ∧
    (∀ s ∈ samplesFor
        ⟨1, "other", "Custom Work", ⟨2024, 1, 1⟩, ⟨2024, 1, 3⟩, 10⟩,
      s.pos = "Custom Work") ∧
    (∀ k ∈ (positionCost (samplesFor
        ⟨1, "other", "Custom Work", ⟨2024, 1, 1⟩, ⟨2024, 1, 3⟩, 10⟩)).map
          Prod.fst, k = "Custom Work") ∧
    "other" ∉ (positionCost (samplesFor
        ⟨1, "other", "Custom Work", ⟨2024, 1, 1⟩, ⟨2024, 1, 3⟩, 10⟩)).map
          Prod.fst ∧
    (∀ kp ∈ (positionMonthlyCost (samplesFor
        ⟨1, "other", "Custom Work", ⟨2024, 1, 1⟩, ⟨2024, 1, 3⟩, 10⟩)).map
          Prod.fst, kp.2 = "Custom Work") :=
  c7_sentinel_resolved_everywhere
    ⟨1, "other", "Custom Work", ⟨2024, 1, 1⟩, ⟨2024, 1, 3⟩, 10⟩ rfl
    (by decide)

/-- Claim C8: every error raised while computing or placing one of the three
per-row cost annotations makes the renderer return the plain-text response
carrying the exception message instead of a chart; the result type has no
uncaught-exception outcome, so nothing propagates to the calling request. -/
theorem c8_annotation_error_degrades_to_text (names : List String)
    (mc : List (String × ℚ)) (pmc : List ((String × String) × ℚ))
    (pc : List (String × ℚ)) (total : ℚ) (e : String)
    (h : placeAnnotations names mc pmc pc = Except.error e) :
    renderChart names mc pmc pc total =
      RenderResult.errorText ("Error plotting cost information: " ++ e) ∧
    ∀ ch : Chart,
      renderChart names mc pmc pc total ≠ RenderResult.chart ch := by
  have h1 : renderChart names mc pmc pc total =
      RenderResult.errorText ("Error plotting cost information: " ++ e) := by
    simp [renderChart, h]
  exact ⟨h1, fun ch hch => by simp [h1] at hch⟩

/-- Witness for C8: a position-total row naming a position absent from the
bar labels degrades to the plain-text error response. -/
theorem c8_witness :
    renderChart ["Roof"] [] [] [("Doors", 5)] 0 =
      RenderResult.errorText
        ("Error plotting cost information: " ++ "Doors is not in list") ∧
    ∀ ch : Chart,
      renderChart ["Roof"] [] [] [("Doors", 5)] 0 ≠
        RenderResult.chart ch :=
  c8_annotation_error_degrades_to_text ["Roof"] [] [] [("Doors", 5)] 0
    "Doors is not in list" rfl

/-- Counterexample for C10: a form submission selecting the sentinel name and
typing the literal text of the sentinel as the free-text name passes the
clean validations, yet the persisted record's name is that sentinel string —
so not every saved position has a name different from it. -/
theorem c10_counterexample :
    cleanOk ⟨1, "other", "other", ⟨2024, 1, 1⟩, ⟨2024, 1, 2⟩, 5⟩ ∧
    (saveForm ⟨1, "other", "other", ⟨2024, 1, 1⟩, ⟨2024, 1, 2⟩, 5⟩).name =
      "other" := by
  exact ⟨by decide, rfl⟩

/-- Claim C10 (amended): for every validated form whose free-text name is not
itself the literal sentinel string, the persisted name differs from the
sentinel; when the sentinel is selected, clean forces a non-empty free-text
name and save substitutes it into the stored name. The persisted record
(`SavedPosition`, mirroring the model) carries no free-text column, only the
resolved display name. -/
theorem c10_amended_saved_name_resolved (fd : PositionFormData)
    (hc : cleanOk fd) (ho : fd.other_name ≠ "other") :
    (saveForm fd).name ≠ "other" ∧
    (fd.name = "other" →
      (saveForm fd).name = fd.other_name ∧ fd.other_name ≠ "") := by
  by_cases hn : fd.name = "other"
  · refine ⟨?_, fun _ => ⟨?_, ?_⟩⟩
    · simpa [saveForm, savedName, hn] using ho
    · simp [saveForm, savedName, hn]
    · intro he
      exact hc.1 ⟨hn, he⟩
  · refine ⟨?_, fun h1 => absurd h1 hn⟩
    simp [saveForm, savedName, hn]

/-- Witness for C10 (amended): selecting the sentinel with free-text name
Custom Work persists the name Custom Work. -/
theorem c10_witness :
    (saveForm ⟨1, "other", "Custom Work", ⟨2024, 1, 1⟩, ⟨2024, 1, 2⟩, 5⟩).name
      ≠ "other" ∧
    (PositionFormData.name
        ⟨1, "other", "Custom Work", ⟨2024, 1, 1⟩, ⟨2024, 1, 2⟩, 5⟩
        = "other" →
      (saveForm ⟨1, "other", "Custom Work", ⟨2024, 1, 1⟩,
        ⟨2024, 1, 2⟩, 5⟩).name = "Custom Work" ∧
      ("Custom Work" : String) ≠ "") :=
  c10_amended_saved_name_resolved
    ⟨1, "other", "Custom Work", ⟨2024, 1, 1⟩, ⟨2024, 1, 2⟩, 5⟩
    (by decide) (by decide)

end ConstrFin
